import Mathlib

/-!
# Abcd volatility curve (ql/termstructures/volatilities/interestrate/abcd.cpp)

A shallow embedding of the `Abcd` and `AbcdSquared` classes.  The numeric type
`Real`/`Time` of the source is a type parameter `α` carrying a linear ordered
field structure; the two math primitives `std::exp` and `std::sqrt` are
arguments of the functions that call them.  The theorems instantiate `α` with
the real numbers, `Real.exp` and `Real.sqrt`.  A failed `QL_REQUIRE` is an
`Except.error`.

The theorems are statements of exact real arithmetic.  The double evaluation
of `Abcd::primitive` departs from it in two places: at `c_ = 0` the quotient
is `0/0` (a NaN in the source, `0` under the total division of a field), and
for `c_` close to `0` the dividend is a difference of terms much larger than
itself, so that its rounding error is not small against the quotient.
-/

namespace QuantLib

/-- The failures the file can raise: a rejected parameter quadruple, and the two
`QL_REQUIRE` checks ("tMax must be > tMin", "integrations bounds ... are in
reverse order"). -/
inductive Error where
  | invalidParameters
  | tMaxNotGreater
  | reverseOrder
  deriving DecidableEq, Repr

/-- The data members `a_, b_, c_, d_` of the class `Abcd`. -/
structure Abcd (α : Type) where
  a_ : α
  b_ : α
  c_ : α
  d_ : α

/-- The data members `abcd_, T_, S_` of the class `AbcdSquared`. -/
structure AbcdSquared (α : Type) where
  abcd_ : Abcd α
  T_ : α
  S_ : α

/-- Whether a result is a value (no exception was thrown). -/
def succeeded {ε β : Type} : Except ε β → Bool
  | .ok _ => true
  | .error _ => false

section Source

variable {α : Type} [LinearOrderedField α]

/-- `Abcd::Abcd(a, b, c, d)`: the members are initialised and the external
`validateAbcdParameters` is run; when it throws, no object is produced. -/
def Abcd.construct (validateAbcdParameters : α → α → α → α → Except Error Unit)
    (a b c d : α) : Except Error (Abcd α) := do
  validateAbcdParameters a b c d
  pure { a_ := a, b_ := b, c_ := c, d_ := d }

/-- `Abcd::operator()(u)`. -/
def Abcd.operatorCall (exp : α → α) (p : Abcd α) (u : α) : α :=
  if u < 0 then 0 else (p.a_ + p.b_ * u) * exp (-p.c_ * u) + p.d_

/-- Modelled from the spec: `shortTermVolatility()` is declared in the header,
which is not part of the sources; the spec gives the short-term value as
`f(0) = a + d`. -/
def Abcd.shortTermVolatility (p : Abcd α) : α :=
  p.a_ + p.d_

/-- `Abcd::maximumLocation()`. -/
def Abcd.maximumLocation (p : Abcd α) : α :=
  if p.b_ ≤ 0 then 0
  else
    if (p.b_ - p.c_ * p.a_) / (p.c_ * p.b_) > 0 then
      (p.b_ - p.c_ * p.a_) / (p.c_ * p.b_)
    else 0

/-- `Abcd::maximumVolatility()`. -/
def Abcd.maximumVolatility (exp : α → α) (p : Abcd α) : α :=
  if p.b_ ≤ 0 then p.shortTermVolatility
  else
    if (p.b_ - p.c_ * p.a_) / (p.c_ * p.b_) > 0 then
      p.b_ / p.c_ * exp (-1 + p.c_ * p.a_ / p.b_) + p.d_
    else p.shortTermVolatility

/-- `Abcd::instantaneousCovariance(u, T, S)`. -/
def Abcd.instantaneousCovariance (exp : α → α) (p : Abcd α) (u T S : α) : α :=
  p.operatorCall exp (T - u) * p.operatorCall exp (S - u)

/-- `Abcd::instantaneousVariance(u, T)`. -/
def Abcd.instantaneousVariance (exp : α → α) (p : Abcd α) (u T : α) : α :=
  p.instantaneousCovariance exp u T T

/-- `Abcd::instantaneousVolatility(u, T)`. -/
def Abcd.instantaneousVolatility (exp sqrt : α → α) (p : Abcd α) (u T : α) : α :=
  sqrt (p.instantaneousVariance exp u T)

/-- `Abcd::primitive(t, T, S)`, with `k1, k2, k3` the three exponentials.  The quotient is
the field's total division: at `c_ = 0`, where the source divides `0.0` by `0.0`, it is `0`
(see `Abcd.primitiveDividend`, `Abcd.primitiveDivisor`). -/
def Abcd.primitive (exp : α → α) (p : Abcd α) (t T S : α) : α :=
  if T < t ∨ S < t then 0
  else
    let k1 := exp (p.c_ * t)
    let k2 := exp (p.c_ * S)
    let k3 := exp (p.c_ * T)
    (p.b_ * p.b_ * (-1 - 2 * p.c_ * p.c_ * S * T - p.c_ * (S + T)
                 + k1 * k1 * (1 + p.c_ * (S + T - 2 * t)
                              + 2 * p.c_ * p.c_ * (S - t) * (T - t)))
      + 2 * p.c_ * p.c_ * (2 * p.d_ * p.a_ * (k2 + k3) * (k1 - 1)
                 + p.a_ * p.a_ * (k1 * k1 - 1) + 2 * p.c_ * p.d_ * p.d_ * k2 * k3 * t)
      + 2 * p.b_ * p.c_ * (p.a_ * (-1 - p.c_ * (S + T)
                                 + k1 * k1 * (1 + p.c_ * (S + T - 2 * t)))
                 - 2 * p.d_ * (k3 * (1 + p.c_ * S) + k2 * (1 + p.c_ * T)
                           - k1 * k3 * (1 + p.c_ * (S - t))
                           - k1 * k2 * (1 + p.c_ * (T - t)))))
      / (4 * p.c_ * p.c_ * p.c_ * k2 * k3)

/-- `Abcd::covariance(t, T, S)`, the three-argument overload. -/
def Abcd.covariance3 (exp : α → α) (p : Abcd α) (t T S : α) : α :=
  p.operatorCall exp (T - t) * p.operatorCall exp (S - t)

/-- `Abcd::covariance(t1, t2, T, S)`, the four-argument overload. -/
def Abcd.covariance (exp : α → α) (p : Abcd α) (t1 t2 T S : α) : Except Error α :=
  if ¬ (t1 ≤ t2) then .error .reverseOrder
  else
    let cutOff := min S T
    if t1 ≥ cutOff then .ok 0
    else
      let cutOff := min t2 cutOff
      .ok (p.primitive exp cutOff T S - p.primitive exp t1 T S)

/-- `Abcd::variance(tMin, tMax, T)`. -/
def Abcd.variance (exp : α → α) (p : Abcd α) (tMin tMax T : α) : Except Error α :=
  p.covariance exp tMin tMax T T

/-- `Abcd::volatility(tMin, tMax, T)`. -/
def Abcd.volatility (exp sqrt : α → α) (p : Abcd α) (tMin tMax T : α) :
    Except Error α :=
  if tMax = tMin then .ok (p.instantaneousVolatility exp sqrt tMax T)
  else if ¬ (tMax > tMin) then .error .tMaxNotGreater
  else do
    let v ← p.variance exp tMin tMax T
    pure (sqrt (v / (tMax - tMin)))

/-- `AbcdSquared::AbcdSquared(a, b, c, d, T, S)`: builds its own curve. -/
def AbcdSquared.construct (validateAbcdParameters : α → α → α → α → Except Error Unit)
    (a b c d T S : α) : Except Error (AbcdSquared α) := do
  let curve ← Abcd.construct validateAbcdParameters a b c d
  pure { abcd_ := curve, T_ := T, S_ := S }

/-- `AbcdSquared::operator()(t)`. -/
def AbcdSquared.operatorCall (exp : α → α) (q : AbcdSquared α) (t : α) : α :=
  q.abcd_.covariance3 exp t q.T_ q.S_

end Source

/-- The expression `Abcd::primitive` returns once its guard has been passed. -/
def Abcd.closedForm {α : Type} [LinearOrderedField α] (exp : α → α) (p : Abcd α)
    (t T S : α) : α :=
  (p.b_ * p.b_ * (-1 - 2 * p.c_ * p.c_ * S * T - p.c_ * (S + T)
               + exp (p.c_ * t) * exp (p.c_ * t) * (1 + p.c_ * (S + T - 2 * t)
                            + 2 * p.c_ * p.c_ * (S - t) * (T - t)))
    + 2 * p.c_ * p.c_ * (2 * p.d_ * p.a_ * (exp (p.c_ * S) + exp (p.c_ * T))
                   * (exp (p.c_ * t) - 1)
               + p.a_ * p.a_ * (exp (p.c_ * t) * exp (p.c_ * t) - 1)
               + 2 * p.c_ * p.d_ * p.d_ * exp (p.c_ * S) * exp (p.c_ * T) * t)
    + 2 * p.b_ * p.c_ * (p.a_ * (-1 - p.c_ * (S + T)
                               + exp (p.c_ * t) * exp (p.c_ * t) * (1 + p.c_ * (S + T - 2 * t)))
               - 2 * p.d_ * (exp (p.c_ * T) * (1 + p.c_ * S) + exp (p.c_ * S) * (1 + p.c_ * T)
                         - exp (p.c_ * t) * exp (p.c_ * T) * (1 + p.c_ * (S - t))
                         - exp (p.c_ * t) * exp (p.c_ * S) * (1 + p.c_ * (T - t)))))
    / (4 * p.c_ * p.c_ * p.c_ * exp (p.c_ * S) * exp (p.c_ * T))

/-- The dividend of the quotient `Abcd::primitive` returns. -/
def Abcd.primitiveDividend {α : Type} [LinearOrderedField α] (exp : α → α) (p : Abcd α)
    (t T S : α) : α :=
  p.b_ * p.b_ * (-1 - 2 * p.c_ * p.c_ * S * T - p.c_ * (S + T)
               + exp (p.c_ * t) * exp (p.c_ * t) * (1 + p.c_ * (S + T - 2 * t)
                            + 2 * p.c_ * p.c_ * (S - t) * (T - t)))
    + 2 * p.c_ * p.c_ * (2 * p.d_ * p.a_ * (exp (p.c_ * S) + exp (p.c_ * T))
                   * (exp (p.c_ * t) - 1)
               + p.a_ * p.a_ * (exp (p.c_ * t) * exp (p.c_ * t) - 1)
               + 2 * p.c_ * p.d_ * p.d_ * exp (p.c_ * S) * exp (p.c_ * T) * t)
    + 2 * p.b_ * p.c_ * (p.a_ * (-1 - p.c_ * (S + T)
                               + exp (p.c_ * t) * exp (p.c_ * t) * (1 + p.c_ * (S + T - 2 * t)))
               - 2 * p.d_ * (exp (p.c_ * T) * (1 + p.c_ * S) + exp (p.c_ * S) * (1 + p.c_ * T)
                         - exp (p.c_ * t) * exp (p.c_ * T) * (1 + p.c_ * (S - t))
                         - exp (p.c_ * t) * exp (p.c_ * S) * (1 + p.c_ * (T - t))))

/-- The divisor `4*c_*c_*c_*k2*k3` of the quotient `Abcd::primitive` returns. -/
def Abcd.primitiveDivisor {α : Type} [LinearOrderedField α] (exp : α → α) (p : Abcd α)
    (T S : α) : α :=
  4 * p.c_ * p.c_ * p.c_ * exp (p.c_ * S) * exp (p.c_ * T)

/-- The curve formula without the guard on negative times. -/
def Abcd.formula {α : Type} [LinearOrderedField α] (exp : α → α) (p : Abcd α) (u : α) : α :=
  (p.a_ + p.b_ * u) * exp (-p.c_ * u) + p.d_

/-! ## Auxiliary facts -/

theorem primitive_eq_closedForm {α : Type} [LinearOrderedField α] (exp : α → α)
    (p : Abcd α) (t T S : α) (hT : t ≤ T) (hS : t ≤ S) :
    p.primitive exp t T S = p.closedForm exp t T S := by
  have hg : ¬ (T < t ∨ S < t) := by
    rintro (h | h)
    · exact absurd hT (not_le.mpr h)
    · exact absurd hS (not_le.mpr h)
  simp only [Abcd.primitive, Abcd.closedForm, if_neg hg]

theorem primitive_eq_zero {α : Type} [LinearOrderedField α] (exp : α → α)
    (p : Abcd α) (t T S : α) (h : T < t ∨ S < t) :
    p.primitive exp t T S = 0 := by
  simp only [Abcd.primitive, if_pos h]

theorem operatorCall_of_nonneg {α : Type} [LinearOrderedField α] (exp : α → α)
    (p : Abcd α) (u : α) (h : 0 ≤ u) :
    p.operatorCall exp u = p.formula exp u := by
  simp only [Abcd.operatorCall, Abcd.formula, if_neg (not_lt.mpr h)]

theorem operatorCall_of_neg {α : Type} [LinearOrderedField α] (exp : α → α)
    (p : Abcd α) (u : α) (h : u < 0) :
    p.operatorCall exp u = 0 := by
  simp only [Abcd.operatorCall, if_pos h]

theorem hasDerivAt_numerator (a b c d S T t : ℝ) :
    HasDerivAt (fun x : ℝ =>
      (b * b * (-1 - 2 * c * c * S * T - c * (S + T)
                 + Real.exp (c * x) * Real.exp (c * x) * (1 + c * (S + T - 2 * x)
                              + 2 * c * c * (S - x) * (T - x)))
      + 2 * c * c * (2 * d * a * (Real.exp (c * S) + Real.exp (c * T)) * (Real.exp (c * x) - 1)
                 + a * a * (Real.exp (c * x) * Real.exp (c * x) - 1)
                 + 2 * c * d * d * Real.exp (c * S) * Real.exp (c * T) * x)
      + 2 * b * c * (a * (-1 - c * (S + T)
                                 + Real.exp (c * x) * Real.exp (c * x) * (1 + c * (S + T - 2 * x)))
                 - 2 * d * (Real.exp (c * T) * (1 + c * S) + Real.exp (c * S) * (1 + c * T)
                           - Real.exp (c * x) * Real.exp (c * T) * (1 + c * (S - x))
                           - Real.exp (c * x) * Real.exp (c * S) * (1 + c * (T - x))))))
      (4 * c * c * c * (((a + b * (T - t)) * Real.exp (c * t) + d * Real.exp (c * T))
          * ((a + b * (S - t)) * Real.exp (c * t) + d * Real.exp (c * S)))) t := by
  have hE : HasDerivAt (fun x : ℝ => Real.exp (c * x)) (Real.exp (c * t) * c) t := by
    simpa using ((hasDerivAt_id t).const_mul c).exp
  have hS : HasDerivAt (fun x : ℝ => S - x) (-1) t := by
    simpa using (hasDerivAt_id t).const_sub S
  have hT : HasDerivAt (fun x : ℝ => T - x) (-1) t := by
    simpa using (hasDerivAt_id t).const_sub T
  have hEE := hE.mul hE
  have hQ := hEE.mul
    (((((hS.mul hT).const_mul (2 * c * c * b * b)).add
      ((hS.add hT).const_mul (c * b * b + 2 * b * c * c * a))).add_const
        (b * b + 2 * c * c * a * a + 2 * b * c * a)))
  have hL := hE.mul
    ((((hS.const_mul (4 * b * c * c * d * Real.exp (c * T))).add
      (hT.const_mul (4 * b * c * c * d * Real.exp (c * S)))).add_const
        ((4 * c * c * d * a + 4 * b * c * d) * (Real.exp (c * S) + Real.exp (c * T)))))
  have hD := (hasDerivAt_id t).const_mul
    (4 * c * c * c * d * d * Real.exp (c * S) * Real.exp (c * T))
  have hK := ((hQ.add hL).add hD).add_const
    (b * b * (-1 - 2 * c * c * S * T - c * (S + T))
      - 2 * c * c * (2 * d * a * (Real.exp (c * S) + Real.exp (c * T)) + a * a)
      + 2 * b * c * (a * (-1 - c * (S + T))
          - 2 * d * (Real.exp (c * T) * (1 + c * S) + Real.exp (c * S) * (1 + c * T))))
  convert hK using 1
  · funext x
    simp only [Pi.add_apply, Pi.mul_apply, id]
    ring
  · ring

theorem hasDerivAt_closedForm (p : Abcd ℝ) (hc : p.c_ ≠ 0) (T S t : ℝ) :
    HasDerivAt (fun x : ℝ => p.closedForm Real.exp x T S)
      (p.formula Real.exp (T - t) * p.formula Real.exp (S - t)) t := by
  have h := (hasDerivAt_numerator p.a_ p.b_ p.c_ p.d_ S T t).div_const
    (4 * p.c_ * p.c_ * p.c_ * Real.exp (p.c_ * S) * Real.exp (p.c_ * T))
  have e1 : Real.exp (-p.c_ * (T - t)) = Real.exp (p.c_ * t) / Real.exp (p.c_ * T) := by
    rw [← Real.exp_sub]; congr 1; ring
  have e2 : Real.exp (-p.c_ * (S - t)) = Real.exp (p.c_ * t) / Real.exp (p.c_ * S) := by
    rw [← Real.exp_sub]; congr 1; ring
  have hS : Real.exp (p.c_ * S) ≠ 0 := (Real.exp_pos _).ne'
  have hT : Real.exp (p.c_ * T) ≠ 0 := (Real.exp_pos _).ne'
  refine h.congr_deriv ?_
  simp only [Abcd.formula, e1, e2]
  field_simp
  ring

theorem continuous_formula_mul (p : Abcd ℝ) (T S : ℝ) :
    Continuous (fun t : ℝ => p.formula Real.exp (T - t) * p.formula Real.exp (S - t)) := by
  unfold Abcd.formula
  fun_prop

theorem integral_formula_mul (p : Abcd ℝ) (hc : p.c_ ≠ 0) (T S t1 t2 : ℝ) :
    ∫ t in t1..t2, p.formula Real.exp (T - t) * p.formula Real.exp (S - t)
      = p.closedForm Real.exp t2 T S - p.closedForm Real.exp t1 T S :=
  intervalIntegral.integral_eq_sub_of_hasDerivAt
    (fun x _ => hasDerivAt_closedForm p hc T S x)
    ((continuous_formula_mul p T S).intervalIntegrable t1 t2)

theorem operatorCall_mul_eq_indicator (p : Abcd ℝ) (T S : ℝ) :
    (fun t : ℝ => p.operatorCall Real.exp (T - t) * p.operatorCall Real.exp (S - t))
      = (Set.Iic (min S T)).indicator
          (fun t : ℝ => p.formula Real.exp (T - t) * p.formula Real.exp (S - t)) := by
  funext t
  by_cases h : t ≤ min S T
  · have hS : t ≤ S := le_trans h (min_le_left _ _)
    have hT : t ≤ T := le_trans h (min_le_right _ _)
    rw [Set.indicator_of_mem (Set.mem_Iic.mpr h),
      operatorCall_of_nonneg _ _ _ (sub_nonneg.mpr hT),
      operatorCall_of_nonneg _ _ _ (sub_nonneg.mpr hS)]
  · rw [Set.indicator_of_not_mem (fun hm => h (Set.mem_Iic.mp hm))]
    rcases le_total S T with hST | hST
    · have : S < t := by rw [min_eq_left hST] at h; exact not_le.mp h
      rw [operatorCall_of_neg _ _ (S - t) (sub_neg.mpr this), mul_zero]
    · have : T < t := by rw [min_eq_right hST] at h; exact not_le.mp h
      rw [operatorCall_of_neg _ _ (T - t) (sub_neg.mpr this), zero_mul]

theorem integral_operatorCall_mul (p : Abcd ℝ) (T S t1 t2 : ℝ) (h : t1 ≤ t2) :
    ∫ t in t1..t2, p.operatorCall Real.exp (T - t) * p.operatorCall Real.exp (S - t)
      = ∫ t in Set.Ioc t1 (min t2 (min S T)),
          p.formula Real.exp (T - t) * p.formula Real.exp (S - t) := by
  rw [intervalIntegral.integral_of_le h, operatorCall_mul_eq_indicator,
    MeasureTheory.setIntegral_indicator measurableSet_Iic, Set.Ioc_inter_Iic]

/-- In exact arithmetic and for `c_ ≠ 0`, the interval covariance is the integral of the
product of the two curve values. -/
theorem covariance_eq_integral (p : Abcd ℝ) (hc : p.c_ ≠ 0) (T S t1 t2 : ℝ) (h : t1 ≤ t2) :
    p.covariance Real.exp t1 t2 T S
      = .ok (∫ t in t1..t2,
          p.operatorCall Real.exp (T - t) * p.operatorCall Real.exp (S - t)) := by
  rw [integral_operatorCall_mul p T S t1 t2 h]
  by_cases hcut : t1 ≥ min S T
  · have hempty : Set.Ioc t1 (min t2 (min S T)) = ∅ :=
      Set.Ioc_eq_empty (not_lt.mpr (le_trans (min_le_right _ _) hcut))
    simp only [Abcd.covariance, not_not.mpr h, if_false, if_pos hcut, hempty,
      MeasureTheory.setIntegral_empty]
  · have hlt : t1 < min S T := not_le.mp hcut
    have hle : t1 ≤ min t2 (min S T) := le_min h hlt.le
    have hu : min t2 (min S T) ≤ min S T := min_le_right _ _
    rw [← intervalIntegral.integral_of_le hle, integral_formula_mul p hc,
      ← primitive_eq_closedForm Real.exp p _ T S (le_trans hu (min_le_right _ _))
        (le_trans hu (min_le_left _ _)),
      ← primitive_eq_closedForm Real.exp p t1 T S (le_trans hlt.le (min_le_right _ _))
        (le_trans hlt.le (min_le_left _ _))]
    simp only [Abcd.covariance, not_not.mpr h, if_false, if_neg hcut]

/-- In exact arithmetic and for `c_ ≠ 0`, the interval variance is not negative. -/
theorem variance_nonneg_aux (p : Abcd ℝ) (hc : p.c_ ≠ 0) (T tMin tMax : ℝ) (h : tMin ≤ tMax) :
    ∃ v, p.variance Real.exp tMin tMax T = .ok v ∧ 0 ≤ v := by
  refine ⟨_, covariance_eq_integral p hc T T tMin tMax h, ?_⟩
  exact intervalIntegral.integral_nonneg h (fun u _ => mul_self_nonneg _)

theorem covariance_of_lt_cutOff (p : Abcd ℝ) (t1 t2 T S : ℝ) (h : t1 ≤ t2)
    (hcut : t1 < min S T) :
    p.covariance Real.exp t1 t2 T S
      = .ok (p.primitive Real.exp (min t2 (min S T)) T S - p.primitive Real.exp t1 T S) := by
  simp only [Abcd.covariance, not_not.mpr h, if_false, if_neg (not_le.mpr hcut)]

theorem primitive_symm (p : Abcd ℝ) (t T S : ℝ) :
    p.primitive Real.exp t T S = p.primitive Real.exp t S T := by
  by_cases hg : T < t ∨ S < t
  · rw [primitive_eq_zero _ p t T S hg, primitive_eq_zero _ p t S T hg.symm]
  · have hT : t ≤ T := not_lt.mp (fun h => hg (Or.inl h))
    have hS : t ≤ S := not_lt.mp (fun h => hg (Or.inr h))
    rw [primitive_eq_closedForm _ p t T S hT hS, primitive_eq_closedForm _ p t S T hS hT]
    simp only [Abcd.closedForm]
    ring

/-! ## The claims -/

/-- C2: for `c ≠ 0` and `t < min(S,T)`, `t ↦ primitive(t,T,S)` is differentiable at `t` with
derivative `f(T−t)·f(S−t)`, which is the product of the two abcd expressions. -/
theorem C2_primitive_is_antiderivative (p : Abcd ℝ) (hc : p.c_ ≠ 0) (T S t : ℝ)
    (h : t < min S T) :
    HasDerivAt (fun x : ℝ => p.primitive Real.exp x T S)
        (p.operatorCall Real.exp (T - t) * p.operatorCall Real.exp (S - t)) t ∧
      p.operatorCall Real.exp (T - t) * p.operatorCall Real.exp (S - t)
        = ((p.a_ + p.b_ * (T - t)) * Real.exp (-p.c_ * (T - t)) + p.d_)
          * ((p.a_ + p.b_ * (S - t)) * Real.exp (-p.c_ * (S - t)) + p.d_) := by
  have hS : t ≤ S := (lt_of_lt_of_le h (min_le_left _ _)).le
  have hT : t ≤ T := (lt_of_lt_of_le h (min_le_right _ _)).le
  have hf : p.operatorCall Real.exp (T - t) * p.operatorCall Real.exp (S - t)
      = p.formula Real.exp (T - t) * p.formula Real.exp (S - t) := by
    rw [operatorCall_of_nonneg _ _ _ (sub_nonneg.mpr hT),
      operatorCall_of_nonneg _ _ _ (sub_nonneg.mpr hS)]
  refine ⟨?_, hf⟩
  rw [hf]
  refine (hasDerivAt_closedForm p hc T S t).congr_of_eventuallyEq ?_
  filter_upwards [Iio_mem_nhds h] with x hx
  have hx' : x < min S T := hx
  exact primitive_eq_closedForm Real.exp p x T S
    (lt_of_lt_of_le hx' (min_le_right _ _)).le (lt_of_lt_of_le hx' (min_le_left _ _)).le

/-- Witness of C2: the curve `a=0.2, b=0.4, c=1, d=0.1` at `t = 1`, `T = 2`, `S = 3`. -/
theorem C2_primitive_is_antiderivative_witness :
    (1 : ℝ) ≠ 0 ∧ (1 : ℝ) < min 3 2 ∧
    HasDerivAt (fun x : ℝ => (Abcd.mk 0.2 0.4 1 0.1 : Abcd ℝ).primitive Real.exp x 2 3)
      ((Abcd.mk 0.2 0.4 1 0.1 : Abcd ℝ).operatorCall Real.exp (2 - 1)
        * (Abcd.mk 0.2 0.4 1 0.1 : Abcd ℝ).operatorCall Real.exp (3 - 1)) 1 :=
  ⟨one_ne_zero, by norm_num,
    (C2_primitive_is_antiderivative (Abcd.mk 0.2 0.4 1 0.1) one_ne_zero 2 3 1
      (by norm_num)).1⟩

/-- C3: `operator()(u)` is `0` for `u < 0` and `(a + b·u)·exp(−c·u) + d` for `u ≥ 0`;
in particular `f(0) = a + d`. -/
theorem C3_operatorCall_cases (p : Abcd ℝ) (u : ℝ) :
    (u < 0 → p.operatorCall Real.exp u = 0) ∧
    (0 ≤ u → p.operatorCall Real.exp u = (p.a_ + p.b_ * u) * Real.exp (-p.c_ * u) + p.d_) ∧
    p.operatorCall Real.exp 0 = p.a_ + p.d_ := by
  refine ⟨operatorCall_of_neg _ p u, operatorCall_of_nonneg _ p u, ?_⟩
  simp [Abcd.operatorCall]

/-- Witness of C3: the curve `a=0.2, b=0.4, c=1, d=0.1` at `u = -1` and at `u = 2`. -/
theorem C3_operatorCall_cases_witness :
    ((-1 : ℝ) < 0 ∧ (Abcd.mk 0.2 0.4 1 0.1 : Abcd ℝ).operatorCall Real.exp (-1) = 0) ∧
    ((0 : ℝ) ≤ 2 ∧ (Abcd.mk 0.2 0.4 1 0.1 : Abcd ℝ).operatorCall Real.exp 2
        = (0.2 + 0.4 * 2) * Real.exp (-1 * 2) + 0.1) :=
  ⟨⟨by norm_num, (C3_operatorCall_cases (Abcd.mk 0.2 0.4 1 0.1) (-1)).1 (by norm_num)⟩,
    ⟨by norm_num, (C3_operatorCall_cases (Abcd.mk 0.2 0.4 1 0.1) 2).2.1 (by norm_num)⟩⟩

theorem covariance_returns (p : Abcd ℝ) (t1 t2 T S : ℝ) (h : t1 ≤ t2) :
    ∃ v, p.covariance Real.exp t1 t2 T S = .ok v := by
  by_cases hcut : t1 ≥ min S T
  · exact ⟨0, by simp only [Abcd.covariance, not_not.mpr h, if_false, if_pos hcut]⟩
  · exact ⟨p.primitive Real.exp (min t2 (min S T)) T S - p.primitive Real.exp t1 T S,
      by simp only [Abcd.covariance, not_not.mpr h, if_false, if_neg hcut]⟩

/-- C4: the four-argument `covariance(t1,t2,T,S)` fails exactly when `t1 > t2` (with the
reverse-order error); for `t1 ≤ t2` it returns a value. -/
theorem C4_covariance_fails_iff_reversed (p : Abcd ℝ) (t1 t2 T S : ℝ) :
    (succeeded (p.covariance Real.exp t1 t2 T S) = false ↔ t1 > t2) ∧
    (t1 > t2 → p.covariance Real.exp t1 t2 T S = .error .reverseOrder) ∧
    (t1 ≤ t2 → ∃ v, p.covariance Real.exp t1 t2 T S = .ok v) := by
  by_cases h : t1 ≤ t2
  · have hgt : ¬ t1 > t2 := not_lt.mpr h
    by_cases hcut : t1 ≥ min S T
    · simp [Abcd.covariance, succeeded, h, hcut, hgt]
    · simp [Abcd.covariance, succeeded, h, hcut, hgt]
  · have hgt : t1 > t2 := not_le.mp h
    simp [Abcd.covariance, succeeded, h, hgt]

/-- Witness of C4: bounds `(2, 1)` are rejected and bounds `(1, 2)` are accepted. -/
theorem C4_covariance_fails_iff_reversed_witness :
    ((2 : ℝ) > 1 ∧ (Abcd.mk 0.2 0.4 1 0.1 : Abcd ℝ).covariance Real.exp 2 1 3 4
        = .error .reverseOrder) ∧
    ((1 : ℝ) ≤ 2 ∧ ∃ v, (Abcd.mk 0.2 0.4 1 0.1 : Abcd ℝ).covariance Real.exp 1 2 3 4 = .ok v) :=
  ⟨⟨by norm_num, (C4_covariance_fails_iff_reversed (Abcd.mk 0.2 0.4 1 0.1) 2 1 3 4).2.1
      (by norm_num)⟩,
    ⟨by norm_num, (C4_covariance_fails_iff_reversed (Abcd.mk 0.2 0.4 1 0.1) 1 2 3 4).2.2
      (by norm_num)⟩⟩

/-- C5: `volatility(tMin,tMax,T)` fails exactly when `tMax < tMin`; for `tMax ≥ tMin` it
returns a value, and once `tMax > tMin` has been checked the nested
`variance(tMin,tMax,T)`, that is `covariance(tMin,tMax,T,T)`, returns a value too. -/
theorem C5_volatility_fails_iff_reversed (p : Abcd ℝ) (tMin tMax T : ℝ) :
    (succeeded (p.volatility Real.exp Real.sqrt tMin tMax T) = false ↔ tMax < tMin) ∧
    (tMax < tMin → p.volatility Real.exp Real.sqrt tMin tMax T = .error .tMaxNotGreater) ∧
    (tMax ≥ tMin → ∃ v, p.volatility Real.exp Real.sqrt tMin tMax T = .ok v) ∧
    (tMax > tMin → ∃ v, p.variance Real.exp tMin tMax T = .ok v ∧
      p.covariance Real.exp tMin tMax T T = .ok v) := by
  have hnested : tMax > tMin → ∃ v, p.variance Real.exp tMin tMax T = .ok v ∧
      p.covariance Real.exp tMin tMax T T = .ok v := by
    intro hgt
    obtain ⟨v, hv⟩ := covariance_returns p tMin tMax T T (le_of_lt hgt)
    exact ⟨v, hv, hv⟩
  rcases lt_trichotomy tMax tMin with hlt | heq | hgt
  · have hne : ¬ tMax = tMin := ne_of_lt hlt
    have hng : ¬ tMax > tMin := not_lt.mpr hlt.le
    have hval : p.volatility Real.exp Real.sqrt tMin tMax T = .error .tMaxNotGreater := by
      simp only [Abcd.volatility, if_neg hne, not_not.mpr hng, if_pos hng]
    refine ⟨?_, fun _ => hval, fun hge => absurd hlt (not_lt.mpr hge), hnested⟩
    rw [hval]
    simp [succeeded, hlt]
  · have hval : p.volatility Real.exp Real.sqrt tMin tMax T
        = .ok (p.instantaneousVolatility Real.exp Real.sqrt tMax T) := by
      simp only [Abcd.volatility, if_pos heq]
    refine ⟨?_, fun hlt => absurd heq (ne_of_lt hlt), fun _ => ⟨_, hval⟩, hnested⟩
    rw [hval]
    simp [succeeded, heq]
  · have hne : ¬ tMax = tMin := ne_of_gt hgt
    obtain ⟨v, hv, _⟩ := hnested hgt
    have hval : p.volatility Real.exp Real.sqrt tMin tMax T
        = .ok (Real.sqrt (v / (tMax - tMin))) := by
      simp only [Abcd.volatility, if_neg hne, not_not.mpr hgt, if_false, hv]
      rfl
    refine ⟨?_, fun hlt => absurd hgt (not_lt.mpr hlt.le), fun _ => ⟨_, hval⟩, hnested⟩
    rw [hval]
    simp [succeeded, hgt.le]

/-- Witness of C5: the window `(2, 1)` is rejected, the window `(1, 2)` is accepted and its
nested variance call returns. -/
theorem C5_volatility_fails_iff_reversed_witness :
    ((1 : ℝ) < 2 ∧ (Abcd.mk 0.2 0.4 1 0.1 : Abcd ℝ).volatility Real.exp Real.sqrt 2 1 3
        = .error .tMaxNotGreater) ∧
    ((2 : ℝ) ≥ 1 ∧
      ∃ v, (Abcd.mk 0.2 0.4 1 0.1 : Abcd ℝ).volatility Real.exp Real.sqrt 1 2 3 = .ok v) ∧
    ((2 : ℝ) > 1 ∧ ∃ v, (Abcd.mk 0.2 0.4 1 0.1 : Abcd ℝ).variance Real.exp 1 2 3 = .ok v ∧
      (Abcd.mk 0.2 0.4 1 0.1 : Abcd ℝ).covariance Real.exp 1 2 3 3 = .ok v) :=
  ⟨⟨by norm_num, (C5_volatility_fails_iff_reversed (Abcd.mk 0.2 0.4 1 0.1) 2 1 3).2.1
      (by norm_num)⟩,
    ⟨by norm_num, (C5_volatility_fails_iff_reversed (Abcd.mk 0.2 0.4 1 0.1) 1 2 3).2.2.1
      (by norm_num)⟩,
    ⟨by norm_num, (C5_volatility_fails_iff_reversed (Abcd.mk 0.2 0.4 1 0.1) 1 2 3).2.2.2
      (by norm_num)⟩⟩

/-- C6: for `t1 ≤ t2` and `t1 ≥ min(S,T)` the four-argument covariance returns exactly `0`. -/
theorem C6_covariance_zero_past_cutoff (p : Abcd ℝ) (t1 t2 T S : ℝ) (h : t1 ≤ t2)
    (hcut : t1 ≥ min S T) :
    p.covariance Real.exp t1 t2 T S = .ok 0 := by
  simp only [Abcd.covariance, not_not.mpr h, if_false, if_pos hcut]

/-- Witness of C6: the window `[3, 5]` with maturities `T = 2`, `S = 3`. -/
theorem C6_covariance_zero_past_cutoff_witness :
    (3 : ℝ) ≤ 5 ∧ (3 : ℝ) ≥ min 3 2 ∧
    (Abcd.mk 0.2 0.4 1 0.1 : Abcd ℝ).covariance Real.exp 3 5 2 3 = .ok 0 :=
  ⟨by norm_num, by norm_num,
    C6_covariance_zero_past_cutoff (Abcd.mk 0.2 0.4 1 0.1) 3 5 2 3 (by norm_num) (by norm_num)⟩

/-- C7: `volatility(t,t,T)` succeeds and is `instantaneousVolatility(t,T)`, which is
`sqrt(f(T−t)·f(T−t))`; the zero-length window is never divided by. -/
theorem C7_volatility_degenerate_window (p : Abcd ℝ) (t T : ℝ) :
    p.volatility Real.exp Real.sqrt t t T
      = .ok (p.instantaneousVolatility Real.exp Real.sqrt t T) ∧
    p.instantaneousVolatility Real.exp Real.sqrt t T
      = Real.sqrt (p.operatorCall Real.exp (T - t) * p.operatorCall Real.exp (T - t)) := by
  constructor
  · simp only [Abcd.volatility, if_true]
  · rfl

/-- C9: for `b > 0`, `c > 0` and `b − c·a > 0`, `maximumLocation()` returns
`u* = (b − c·a)/(c·b)`, `u*` is strictly positive, and `f(u*) ≥ f(u)` for every `u ≥ 0`. -/
theorem C9_maximumLocation_is_maximizer (p : Abcd ℝ) (hb : p.b_ > 0) (hc : p.c_ > 0)
    (hbca : p.b_ - p.c_ * p.a_ > 0) :
    p.maximumLocation = (p.b_ - p.c_ * p.a_) / (p.c_ * p.b_) ∧
    0 < p.maximumLocation ∧
    ∀ u : ℝ, 0 ≤ u → p.operatorCall Real.exp u ≤ p.operatorCall Real.exp p.maximumLocation := by
  have hpos : (p.b_ - p.c_ * p.a_) / (p.c_ * p.b_) > 0 := div_pos hbca (mul_pos hc hb)
  have hloc : p.maximumLocation = (p.b_ - p.c_ * p.a_) / (p.c_ * p.b_) := by
    simp only [Abcd.maximumLocation, if_neg (not_le.mpr hb), if_pos hpos]
  refine ⟨hloc, by rw [hloc]; exact hpos, ?_⟩
  intro u hu
  rw [hloc, operatorCall_of_nonneg _ _ _ hu, operatorCall_of_nonneg _ _ _ hpos.le]
  simp only [Abcd.formula]
  have hx : 0 < Real.exp (-p.c_ * u) := Real.exp_pos _
  have hstar : p.a_ + p.b_ * ((p.b_ - p.c_ * p.a_) / (p.c_ * p.b_)) = p.b_ / p.c_ := by
    field_simp
    ring
  have hexp : Real.exp (-p.c_ * ((p.b_ - p.c_ * p.a_) / (p.c_ * p.b_)))
      = Real.exp (p.c_ * (u - (p.b_ - p.c_ * p.a_) / (p.c_ * p.b_))) * Real.exp (-p.c_ * u) := by
    rw [← Real.exp_add]
    congr 1
    ring
  have hlin : p.a_ + p.b_ * u
      = p.b_ / p.c_ * (p.c_ * (u - (p.b_ - p.c_ * p.a_) / (p.c_ * p.b_)) + 1) := by
    field_simp
    ring
  have hle : p.a_ + p.b_ * u
      ≤ p.b_ / p.c_ * Real.exp (p.c_ * (u - (p.b_ - p.c_ * p.a_) / (p.c_ * p.b_))) := by
    rw [hlin]
    exact mul_le_mul_of_nonneg_left (Real.add_one_le_exp _) (div_pos hb hc).le
  rw [hstar, hexp, ← mul_assoc]
  have := mul_le_mul_of_nonneg_right hle hx.le
  linarith

/-- Witness of C9: `a=0.2, b=0.4, c=1, d=0.1` gives `maximumLocation() = 0.5`. -/
theorem C9_maximumLocation_is_maximizer_witness :
    (0.4 : ℝ) > 0 ∧ (1 : ℝ) > 0 ∧ (0.4 : ℝ) - 1 * 0.2 > 0 ∧
    (Abcd.mk 0.2 0.4 1 0.1 : Abcd ℝ).maximumLocation = 0.5 ∧
    0 < (Abcd.mk 0.2 0.4 1 0.1 : Abcd ℝ).maximumLocation ∧
    ∀ u : ℝ, 0 ≤ u → (Abcd.mk 0.2 0.4 1 0.1 : Abcd ℝ).operatorCall Real.exp u
      ≤ (Abcd.mk 0.2 0.4 1 0.1 : Abcd ℝ).operatorCall Real.exp
          (Abcd.mk 0.2 0.4 1 0.1 : Abcd ℝ).maximumLocation := by
  have hw := C9_maximumLocation_is_maximizer (Abcd.mk 0.2 0.4 1 0.1) (by norm_num)
    (by norm_num) (by norm_num)
  refine ⟨by norm_num, by norm_num, by norm_num, ?_, hw.2.1, hw.2.2⟩
  rw [hw.1]
  norm_num

/-- C10: for `c ≠ 0`, `maximumVolatility() = f(maximumLocation())` on every branch: the
short-term value is `f(0) = a + d`, and on the interior branch the shortcut
`(b/c)·exp(−1 + c·a/b) + d` is `f` evaluated at `(b − c·a)/(c·b)`. -/
theorem C10_maximumVolatility_at_maximumLocation (p : Abcd ℝ) (hc : p.c_ ≠ 0) :
    p.maximumVolatility Real.exp = p.operatorCall Real.exp p.maximumLocation ∧
    p.shortTermVolatility = p.operatorCall Real.exp 0 ∧
    p.operatorCall Real.exp 0 = p.a_ + p.d_ ∧
    (¬ p.b_ ≤ 0 → (p.b_ - p.c_ * p.a_) / (p.c_ * p.b_) > 0 →
      p.b_ / p.c_ * Real.exp (-1 + p.c_ * p.a_ / p.b_) + p.d_
        = p.operatorCall Real.exp ((p.b_ - p.c_ * p.a_) / (p.c_ * p.b_))) := by
  have h0 : p.operatorCall Real.exp 0 = p.a_ + p.d_ := by
    simp [Abcd.operatorCall]
  have hshort : p.shortTermVolatility = p.operatorCall Real.exp 0 := by
    rw [h0]
    rfl
  have hint : ¬ p.b_ ≤ 0 → (p.b_ - p.c_ * p.a_) / (p.c_ * p.b_) > 0 →
      p.b_ / p.c_ * Real.exp (-1 + p.c_ * p.a_ / p.b_) + p.d_
        = p.operatorCall Real.exp ((p.b_ - p.c_ * p.a_) / (p.c_ * p.b_)) := by
    intro hb hpos
    have hb0 : p.b_ ≠ 0 := fun h0 => hb (le_of_eq h0)
    rw [operatorCall_of_nonneg _ _ _ hpos.le]
    simp only [Abcd.formula]
    have hstar : p.a_ + p.b_ * ((p.b_ - p.c_ * p.a_) / (p.c_ * p.b_)) = p.b_ / p.c_ := by
      field_simp
      ring
    have harg : -p.c_ * ((p.b_ - p.c_ * p.a_) / (p.c_ * p.b_)) = -1 + p.c_ * p.a_ / p.b_ := by
      field_simp
      ring
    rw [hstar, harg]
  refine ⟨?_, hshort, h0, hint⟩
  by_cases hb : p.b_ ≤ 0
  · simp only [Abcd.maximumVolatility, Abcd.maximumLocation, if_pos hb]
    exact hshort
  · by_cases hpos : (p.b_ - p.c_ * p.a_) / (p.c_ * p.b_) > 0
    · simp only [Abcd.maximumVolatility, Abcd.maximumLocation, if_neg hb, if_pos hpos]
      exact hint hb hpos
    · simp only [Abcd.maximumVolatility, Abcd.maximumLocation, if_neg hb, if_neg hpos]
      exact hshort

/-- Witness of C10: `a=0.2, b=0.4, c=1, d=0.1` gives `maximumVolatility() = f(0.5)`. -/
theorem C10_maximumVolatility_at_maximumLocation_witness :
    (1 : ℝ) ≠ 0 ∧
    (Abcd.mk 0.2 0.4 1 0.1 : Abcd ℝ).maximumVolatility Real.exp
      = (Abcd.mk 0.2 0.4 1 0.1 : Abcd ℝ).operatorCall Real.exp 0.5 := by
  have hw := (C10_maximumVolatility_at_maximumLocation (Abcd.mk 0.2 0.4 1 0.1) one_ne_zero).1
  have hloc : (Abcd.mk 0.2 0.4 1 0.1 : Abcd ℝ).maximumLocation = 0.5 := by
    simp only [Abcd.maximumLocation]
    norm_num
  rw [hloc] at hw
  exact ⟨one_ne_zero, hw⟩

/-- C11 as stated fails: the curve `a=-1, b=0, c=1, d=1` has `b ≤ 0`, `c > 0`,
`maximumLocation() = 0` and `maximumVolatility() = f(0) = 0`, yet `f(1) > f(0)`; and the curve
`a=1, b=-1, c=1, d=0` has `f(2) < f(3)`, so `f` is not non-increasing. -/
theorem C11_counterexample :
    ((Abcd.mk (-1) 0 1 1 : Abcd ℝ).b_ ≤ 0 ∧ (Abcd.mk (-1) 0 1 1 : Abcd ℝ).c_ > 0 ∧
      (Abcd.mk (-1) 0 1 1 : Abcd ℝ).maximumLocation = 0 ∧
      (Abcd.mk (-1) 0 1 1 : Abcd ℝ).maximumVolatility Real.exp = 0 ∧
      (Abcd.mk (-1) 0 1 1 : Abcd ℝ).operatorCall Real.exp 0 = 0 ∧
      (Abcd.mk (-1) 0 1 1 : Abcd ℝ).operatorCall Real.exp 0
        < (Abcd.mk (-1) 0 1 1 : Abcd ℝ).operatorCall Real.exp 1) ∧
    ((Abcd.mk 1 (-1) 1 0 : Abcd ℝ).b_ ≤ 0 ∧ (Abcd.mk 1 (-1) 1 0 : Abcd ℝ).c_ > 0 ∧
      (2 : ℝ) ≤ 3 ∧
      (Abcd.mk 1 (-1) 1 0 : Abcd ℝ).operatorCall Real.exp 2
        < (Abcd.mk 1 (-1) 1 0 : Abcd ℝ).operatorCall Real.exp 3) := by
  have h0 : (Abcd.mk (-1) 0 1 1 : Abcd ℝ).operatorCall Real.exp 0 = 0 := by
    simp [Abcd.operatorCall]
  have h1 : (Abcd.mk (-1) 0 1 1 : Abcd ℝ).operatorCall Real.exp 1 = 1 - Real.exp (-1) := by
    rw [operatorCall_of_nonneg _ _ _ zero_le_one]
    simp only [Abcd.formula]
    norm_num
    ring
  have he : Real.exp (-1) < 1 := by
    rw [Real.exp_lt_one_iff]
    norm_num
  have h2 : (Abcd.mk 1 (-1) 1 0 : Abcd ℝ).operatorCall Real.exp 2 = -Real.exp (-2) := by
    rw [operatorCall_of_nonneg _ _ _ (by norm_num)]
    simp only [Abcd.formula]
    norm_num
  have h3 : (Abcd.mk 1 (-1) 1 0 : Abcd ℝ).operatorCall Real.exp 3 = -(2 * Real.exp (-3)) := by
    rw [operatorCall_of_nonneg _ _ _ (by norm_num)]
    simp only [Abcd.formula]
    norm_num
  have he2 : Real.exp (-2) = Real.exp 1 * Real.exp (-3) := by
    rw [← Real.exp_add]
    norm_num
  have he1 : (2 : ℝ) < Real.exp 1 := by
    have := Real.add_one_lt_exp (one_ne_zero : (1 : ℝ) ≠ 0)
    linarith
  have he3 : 0 < Real.exp (-3) := Real.exp_pos _
  refine ⟨⟨by norm_num, by norm_num, ?_, ?_, h0, ?_⟩, ⟨by norm_num, by norm_num, by norm_num, ?_⟩⟩
  · simp [Abcd.maximumLocation]
  · simp [Abcd.maximumVolatility, Abcd.shortTermVolatility]
  · rw [h0, h1]
    linarith
  · rw [h2, h3, he2]
    nlinarith

/-- C11, amended: for `b ≤ 0`, `c > 0` and `a ≥ 0`, `maximumLocation()` returns `0`,
`maximumVolatility()` returns `a + d = f(0)`, `f(u) ≤ f(0)` for every `u ≥ 0`, and `f` is
non-increasing on the times `u ≥ 0` at which `a + b·u ≥ 0` (all of them when `b = 0`). -/
theorem C11_maximum_at_zero_for_nonpositive_b (p : Abcd ℝ) (hb : p.b_ ≤ 0) (hc : p.c_ > 0)
    (ha : 0 ≤ p.a_) :
    p.maximumLocation = 0 ∧
    p.maximumVolatility Real.exp = p.a_ + p.d_ ∧
    p.operatorCall Real.exp 0 = p.maximumVolatility Real.exp ∧
    (∀ u : ℝ, 0 ≤ u → p.operatorCall Real.exp u ≤ p.operatorCall Real.exp 0) ∧
    (∀ u v : ℝ, 0 ≤ u → u ≤ v → 0 ≤ p.a_ + p.b_ * v →
      p.operatorCall Real.exp v ≤ p.operatorCall Real.exp u) := by
  have hloc : p.maximumLocation = 0 := by
    simp only [Abcd.maximumLocation, if_pos hb]
  have hvol : p.maximumVolatility Real.exp = p.a_ + p.d_ := by
    simp only [Abcd.maximumVolatility, Abcd.shortTermVolatility, if_pos hb]
  have h0 : p.operatorCall Real.exp 0 = p.a_ + p.d_ := by
    simp [Abcd.operatorCall]
  have hmono : ∀ u v : ℝ, 0 ≤ u → u ≤ v → 0 ≤ p.a_ + p.b_ * v →
      p.operatorCall Real.exp v ≤ p.operatorCall Real.exp u := by
    intro u v hu huv hv
    rw [operatorCall_of_nonneg _ _ _ hu, operatorCall_of_nonneg _ _ _ (le_trans hu huv)]
    simp only [Abcd.formula]
    have hlin : p.a_ + p.b_ * v ≤ p.a_ + p.b_ * u := by nlinarith
    have hexp : Real.exp (-p.c_ * v) ≤ Real.exp (-p.c_ * u) := by
      apply Real.exp_le_exp.mpr
      nlinarith
    have hpos : 0 ≤ Real.exp (-p.c_ * u) := (Real.exp_pos _).le
    have := mul_le_mul hlin hexp (Real.exp_pos _).le (le_trans hv hlin)
    linarith
  refine ⟨hloc, hvol, by rw [h0, hvol], ?_, hmono⟩
  intro u hu
  by_cases hsign : 0 ≤ p.a_ + p.b_ * u
  · exact hmono 0 u le_rfl hu hsign
  · rw [h0, operatorCall_of_nonneg _ _ _ hu]
    simp only [Abcd.formula]
    have hneg : (p.a_ + p.b_ * u) * Real.exp (-p.c_ * u) ≤ 0 :=
      mul_nonpos_of_nonpos_of_nonneg (not_le.mp hsign).le (Real.exp_pos _).le
    linarith

/-- Witness of C11 (amended): the curve `a=0.2, b=-0.4, c=1, d=0.1`. -/
theorem C11_maximum_at_zero_for_nonpositive_b_witness :
    (-0.4 : ℝ) ≤ 0 ∧ (1 : ℝ) > 0 ∧ (0 : ℝ) ≤ 0.2 ∧
    (Abcd.mk 0.2 (-0.4) 1 0.1 : Abcd ℝ).maximumLocation = 0 ∧
    (Abcd.mk 0.2 (-0.4) 1 0.1 : Abcd ℝ).maximumVolatility Real.exp = 0.2 + 0.1 ∧
    (∀ u : ℝ, 0 ≤ u → (Abcd.mk 0.2 (-0.4) 1 0.1 : Abcd ℝ).operatorCall Real.exp u
      ≤ (Abcd.mk 0.2 (-0.4) 1 0.1 : Abcd ℝ).operatorCall Real.exp 0) := by
  have hw := C11_maximum_at_zero_for_nonpositive_b (Abcd.mk 0.2 (-0.4) 1 0.1) (by norm_num)
    (by norm_num) (by norm_num)
  exact ⟨by norm_num, by norm_num, by norm_num, hw.1, hw.2.1, hw.2.2.2.1⟩

/-- C12: for `b > 0`, `c > 0` and `b − c·a ≤ 0`, `maximumLocation()` returns `0`,
`maximumVolatility()` returns `a + d`, and `f(u) ≤ f(0)` for every `u ≥ 0`. -/
theorem C12_maximum_at_zero_for_nonpositive_candidate (p : Abcd ℝ) (hb : p.b_ > 0)
    (hc : p.c_ > 0) (hbca : p.b_ - p.c_ * p.a_ ≤ 0) :
    p.maximumLocation = 0 ∧
    p.maximumVolatility Real.exp = p.a_ + p.d_ ∧
    (∀ u : ℝ, 0 ≤ u → p.operatorCall Real.exp u ≤ p.operatorCall Real.exp 0) := by
  have hcand : ¬ (p.b_ - p.c_ * p.a_) / (p.c_ * p.b_) > 0 :=
    not_lt.mpr (div_nonpos_of_nonpos_of_nonneg hbca (mul_pos hc hb).le)
  have hloc : p.maximumLocation = 0 := by
    simp only [Abcd.maximumLocation, if_neg (not_le.mpr hb), if_neg hcand]
  have hvol : p.maximumVolatility Real.exp = p.a_ + p.d_ := by
    simp only [Abcd.maximumVolatility, Abcd.shortTermVolatility, if_neg (not_le.mpr hb),
      if_neg hcand]
  have h0 : p.operatorCall Real.exp 0 = p.a_ + p.d_ := by
    simp [Abcd.operatorCall]
  refine ⟨hloc, hvol, ?_⟩
  intro u hu
  rw [h0, operatorCall_of_nonneg _ _ _ hu]
  simp only [Abcd.formula]
  have ha : 0 < p.a_ := by
    by_contra hneg
    have : p.c_ * p.a_ ≤ 0 := mul_nonpos_of_nonneg_of_nonpos hc.le (not_lt.mp hneg)
    linarith
  have hexp : p.c_ * u + 1 ≤ Real.exp (p.c_ * u) := Real.add_one_le_exp _
  have hlin : p.a_ + p.b_ * u ≤ p.a_ * Real.exp (p.c_ * u) := by
    have h1 : p.a_ * (p.c_ * u + 1) ≤ p.a_ * Real.exp (p.c_ * u) :=
      mul_le_mul_of_nonneg_left hexp ha.le
    have h2 : p.b_ * u ≤ p.c_ * p.a_ * u := mul_le_mul_of_nonneg_right (by linarith) hu
    nlinarith
  have hk : (p.a_ + p.b_ * u) * Real.exp (-p.c_ * u) ≤ p.a_ := by
    rw [neg_mul, Real.exp_neg, ← div_eq_mul_inv, div_le_iff₀ (Real.exp_pos _)]
    exact hlin
  linarith

/-- Witness of C12: `a=0.5, b=0.4, c=1, d=0.1`, where `b − c·a = -0.1`. -/
theorem C12_maximum_at_zero_for_nonpositive_candidate_witness :
    (0.4 : ℝ) > 0 ∧ (1 : ℝ) > 0 ∧ (0.4 : ℝ) - 1 * 0.5 ≤ 0 ∧
    (Abcd.mk 0.5 0.4 1 0.1 : Abcd ℝ).maximumLocation = 0 ∧
    (Abcd.mk 0.5 0.4 1 0.1 : Abcd ℝ).maximumVolatility Real.exp = 0.5 + 0.1 ∧
    (∀ u : ℝ, 0 ≤ u → (Abcd.mk 0.5 0.4 1 0.1 : Abcd ℝ).operatorCall Real.exp u
      ≤ (Abcd.mk 0.5 0.4 1 0.1 : Abcd ℝ).operatorCall Real.exp 0) := by
  have hw := C12_maximum_at_zero_for_nonpositive_candidate (Abcd.mk 0.5 0.4 1 0.1)
    (by norm_num) (by norm_num) (by norm_num)
  exact ⟨by norm_num, by norm_num, by norm_num, hw.1, hw.2.1, hw.2.2⟩

/-- C13: for a flat curve (`a = 0`, `b = 0`, `c ≠ 0`), `f(u) = d` for every `u ≥ 0`, and for
`t1 ≤ t2` with `t1 < min(S,T)` the interval covariance is
`d² · (min(t2, min(S,T)) − t1)`. -/
theorem C13_flat_curve_covariance (c d : ℝ) (hc : c ≠ 0) (T S t1 t2 : ℝ) (h : t1 ≤ t2)
    (hcut : t1 < min S T) :
    (∀ u : ℝ, 0 ≤ u → (Abcd.mk 0 0 c d : Abcd ℝ).operatorCall Real.exp u = d) ∧
    (Abcd.mk 0 0 c d : Abcd ℝ).covariance Real.exp t1 t2 T S
      = .ok (d ^ 2 * (min t2 (min S T) - t1)) := by
  constructor
  · intro u hu
    rw [operatorCall_of_nonneg _ _ _ hu]
    simp [Abcd.formula]
  · have hu : min t2 (min S T) ≤ min S T := min_le_right _ _
    have hflat : ∀ t : ℝ, (Abcd.mk 0 0 c d : Abcd ℝ).closedForm Real.exp t T S = d ^ 2 * t := by
      intro t
      have hS : Real.exp (c * S) ≠ 0 := (Real.exp_pos _).ne'
      have hT : Real.exp (c * T) ≠ 0 := (Real.exp_pos _).ne'
      simp only [Abcd.closedForm]
      field_simp
      ring
    simp only [Abcd.covariance, not_not.mpr h, if_false, if_neg (not_le.mpr hcut)]
    rw [primitive_eq_closedForm Real.exp _ _ T S (le_trans hu (min_le_right _ _))
        (le_trans hu (min_le_left _ _)),
      primitive_eq_closedForm Real.exp _ t1 T S (le_trans hcut.le (min_le_right _ _))
        (le_trans hcut.le (min_le_left _ _)), hflat, hflat]
    congr 1
    ring

/-- Witness of C13: `a=0, b=0, c=1, d=0.15` gives `covariance(0,5,10,10) = 0.1125`. -/
theorem C13_flat_curve_covariance_witness :
    (1 : ℝ) ≠ 0 ∧ (0 : ℝ) ≤ 5 ∧ (0 : ℝ) < min 10 10 ∧
    (Abcd.mk 0 0 1 0.15 : Abcd ℝ).operatorCall Real.exp 3 = 0.15 ∧
    (Abcd.mk 0 0 1 0.15 : Abcd ℝ).covariance Real.exp 0 5 10 10 = .ok 0.1125 := by
  have hw := C13_flat_curve_covariance 1 0.15 one_ne_zero 10 10 0 5 (by norm_num) (by norm_num)
  refine ⟨one_ne_zero, by norm_num, by norm_num, hw.1 3 (by norm_num), ?_⟩
  rw [hw.2]
  congr 1
  norm_num

/-- C14: when validation accepts `(a,b,c,d)`, the adapter `AbcdSquared(a,b,c,d,T,S)` is built
around the curve `Abcd(a,b,c,d)`, and at every `t` it returns the single-point
`covariance(t,T,S)` of that curve, which is `instantaneousCovariance(t,T,S) = f(T−t)·f(S−t)`;
it is `0` when `t > T` or `t > S`, and `f(T−t)²` when `S = T`. -/
theorem C14_adapter_is_single_point_covariance
    (validateAbcdParameters : ℝ → ℝ → ℝ → ℝ → Except Error Unit) (a b c d T S : ℝ)
    (hacc : validateAbcdParameters a b c d = .ok ()) :
    ∃ q : AbcdSquared ℝ,
      AbcdSquared.construct validateAbcdParameters a b c d T S = .ok q ∧
      Abcd.construct validateAbcdParameters a b c d = .ok q.abcd_ ∧
      q.abcd_ = Abcd.mk a b c d ∧
      ∀ t : ℝ,
        q.operatorCall Real.exp t = (Abcd.mk a b c d).covariance3 Real.exp t T S ∧
        (Abcd.mk a b c d).covariance3 Real.exp t T S
          = (Abcd.mk a b c d).instantaneousCovariance Real.exp t T S ∧
        (Abcd.mk a b c d).instantaneousCovariance Real.exp t T S
          = (Abcd.mk a b c d).operatorCall Real.exp (T - t)
            * (Abcd.mk a b c d).operatorCall Real.exp (S - t) ∧
        (t > T ∨ t > S → q.operatorCall Real.exp t = 0) ∧
        (S = T → q.operatorCall Real.exp t
          = (Abcd.mk a b c d).operatorCall Real.exp (T - t) ^ 2) := by
  have hcurve : Abcd.construct validateAbcdParameters a b c d = .ok (Abcd.mk a b c d) := by
    simp only [Abcd.construct, hacc]
    rfl
  refine ⟨AbcdSquared.mk (Abcd.mk a b c d) T S, ?_, hcurve, rfl, ?_⟩
  · simp only [AbcdSquared.construct, hcurve]
    rfl
  · intro t
    refine ⟨rfl, rfl, rfl, ?_, ?_⟩
    · intro hpast
      simp only [AbcdSquared.operatorCall, Abcd.covariance3]
      rcases hpast with hT | hS
      · rw [operatorCall_of_neg _ _ (T - t) (sub_neg.mpr hT), zero_mul]
      · rw [operatorCall_of_neg _ _ (S - t) (sub_neg.mpr hS), mul_zero]
    · intro hST
      simp only [AbcdSquared.operatorCall, Abcd.covariance3, hST]
      ring

/-- Witness of C14: a validation that accepts everything, on `a=0.2, b=0.4, c=1, d=0.1`,
`T = 2`, `S = 3`. -/
theorem C14_adapter_is_single_point_covariance_witness :
    ∃ q : AbcdSquared ℝ,
      AbcdSquared.construct (fun _ _ _ _ => .ok ()) 0.2 0.4 1 0.1 2 3 = .ok q ∧
      q.abcd_ = Abcd.mk 0.2 0.4 1 0.1 ∧
      q.operatorCall Real.exp 1 = (Abcd.mk 0.2 0.4 1 0.1 : Abcd ℝ).operatorCall Real.exp (2 - 1)
        * (Abcd.mk 0.2 0.4 1 0.1 : Abcd ℝ).operatorCall Real.exp (3 - 1) := by
  obtain ⟨q, hq, _, hcurve, hall⟩ :=
    C14_adapter_is_single_point_covariance (fun _ _ _ _ => .ok ()) 0.2 0.4 1 0.1 2 3 rfl
  exact ⟨q, hq, hcurve, (hall 1).1⟩

/-- C15: construction `Abcd(a,b,c,d)` fails exactly when the external validation rejects
`(a,b,c,d)`, with the validation's error and no curve; when validation accepts, the curve
holds exactly the four supplied parameters. -/
theorem C15_construction_follows_validation
    (validateAbcdParameters : ℝ → ℝ → ℝ → ℝ → Except Error Unit) (a b c d : ℝ) :
    (succeeded (Abcd.construct validateAbcdParameters a b c d) = false
      ↔ succeeded (validateAbcdParameters a b c d) = false) ∧
    (validateAbcdParameters a b c d = .ok () →
      Abcd.construct validateAbcdParameters a b c d = .ok (Abcd.mk a b c d)) ∧
    (∀ e, validateAbcdParameters a b c d = .error e →
      Abcd.construct validateAbcdParameters a b c d = .error e) ∧
    (∀ p, Abcd.construct validateAbcdParameters a b c d = .ok p →
      p.a_ = a ∧ p.b_ = b ∧ p.c_ = c ∧ p.d_ = d) := by
  cases hv : validateAbcdParameters a b c d with
  | error e =>
    have hcon : Abcd.construct validateAbcdParameters a b c d = .error e := by
      simp only [Abcd.construct, hv]
      rfl
    rw [hcon]
    refine ⟨by simp [succeeded], ?_, ?_, ?_⟩
    · intro h
      cases h
    · intro e' h
      rw [Except.error.inj h]
    · intro p h
      cases h
  | ok x =>
    have hcon : Abcd.construct validateAbcdParameters a b c d = .ok (Abcd.mk a b c d) := by
      simp only [Abcd.construct, hv]
      rfl
    rw [hcon]
    refine ⟨by simp [succeeded], fun _ => rfl, ?_, ?_⟩
    · intro e h
      cases h
    · intro p h
      cases h
      exact ⟨rfl, rfl, rfl, rfl⟩

/-- Witness of C15: an accepting validation yields the curve with the supplied parameters,
a rejecting one yields its error. -/
theorem C15_construction_follows_validation_witness :
    Abcd.construct (fun _ _ _ _ => .ok ()) (0.2 : ℝ) 0.4 1 0.1 = .ok (Abcd.mk 0.2 0.4 1 0.1) ∧
    Abcd.construct (fun _ _ _ _ => .error .invalidParameters) (0.2 : ℝ) 0.4 (-1) 0.1
      = .error .invalidParameters :=
  ⟨(C15_construction_follows_validation (fun _ _ _ _ => .ok ()) 0.2 0.4 1 0.1).2.1 rfl,
    (C15_construction_follows_validation (fun _ _ _ _ => .error .invalidParameters)
      0.2 0.4 (-1) 0.1).2.2.1 .invalidParameters rfl⟩

/-- C16: `primitive(t,T,S)` is `0` when `t > T` or `t > S`; for `t ≤ T` and `t ≤ S` it is the
closed-form expression over the denominator `4·c³·exp(c·S)·exp(c·T)`. -/
theorem C16_primitive_cases (p : Abcd ℝ) (t T S : ℝ) :
    (t > T ∨ t > S → p.primitive Real.exp t T S = 0) ∧
    (t ≤ T → t ≤ S → p.primitive Real.exp t T S =
      (p.b_ * p.b_ * (-1 - 2 * p.c_ * p.c_ * S * T - p.c_ * (S + T)
          + Real.exp (p.c_ * t) * Real.exp (p.c_ * t) * (1 + p.c_ * (S + T - 2 * t)
              + 2 * p.c_ * p.c_ * (S - t) * (T - t)))
        + 2 * p.c_ * p.c_ * (2 * p.d_ * p.a_ * (Real.exp (p.c_ * S) + Real.exp (p.c_ * T))
              * (Real.exp (p.c_ * t) - 1)
            + p.a_ * p.a_ * (Real.exp (p.c_ * t) * Real.exp (p.c_ * t) - 1)
            + 2 * p.c_ * p.d_ * p.d_ * Real.exp (p.c_ * S) * Real.exp (p.c_ * T) * t)
        + 2 * p.b_ * p.c_ * (p.a_ * (-1 - p.c_ * (S + T)
              + Real.exp (p.c_ * t) * Real.exp (p.c_ * t) * (1 + p.c_ * (S + T - 2 * t)))
            - 2 * p.d_ * (Real.exp (p.c_ * T) * (1 + p.c_ * S)
              + Real.exp (p.c_ * S) * (1 + p.c_ * T)
              - Real.exp (p.c_ * t) * Real.exp (p.c_ * T) * (1 + p.c_ * (S - t))
              - Real.exp (p.c_ * t) * Real.exp (p.c_ * S) * (1 + p.c_ * (T - t)))))
        / (4 * p.c_ ^ 3 * Real.exp (p.c_ * S) * Real.exp (p.c_ * T))) := by
  constructor
  · intro hpast
    exact primitive_eq_zero Real.exp p t T S hpast
  · intro hT hS
    rw [primitive_eq_closedForm Real.exp p t T S hT hS]
    simp only [Abcd.closedForm]
    congr 1
    ring

/-- Witness of C16: the curve `a=0.2, b=0.4, c=1, d=0.1` at `t = 3 > T = 2`. -/
theorem C16_primitive_cases_witness :
    ((3 : ℝ) > 2 ∨ (3 : ℝ) > 4) ∧
    (Abcd.mk 0.2 0.4 1 0.1 : Abcd ℝ).primitive Real.exp 3 2 4 = 0 :=
  ⟨Or.inl (by norm_num),
    (C16_primitive_cases (Abcd.mk 0.2 0.4 1 0.1) 3 2 4).1 (Or.inl (by norm_num))⟩

/-- C17, at the failing input: for the curve `a=0.25, b=0.5, c=0, d=0.125` the call
`covariance(1,1,2,3)` passes the order check and the cut-off test and returns
`primitive(1,2,3) − primitive(1,2,3)`; `primitive(1,2,3)` passes its guard and is a quotient
whose dividend and divisor are both `0`, which the source's double division makes a NaN. -/
theorem C17_primitive_divides_zero_by_zero :
    (Abcd.mk 0.25 0.5 0 0.125 : Abcd ℝ).covariance Real.exp 1 1 2 3
      = .ok ((Abcd.mk 0.25 0.5 0 0.125 : Abcd ℝ).primitive Real.exp 1 2 3
          - (Abcd.mk 0.25 0.5 0 0.125 : Abcd ℝ).primitive Real.exp 1 2 3) ∧
    ¬ ((2 : ℝ) < 1 ∨ (3 : ℝ) < 1) ∧
    (Abcd.mk 0.25 0.5 0 0.125 : Abcd ℝ).primitive Real.exp 1 2 3
      = (Abcd.mk 0.25 0.5 0 0.125 : Abcd ℝ).primitiveDividend Real.exp 1 2 3
        / (Abcd.mk 0.25 0.5 0 0.125 : Abcd ℝ).primitiveDivisor Real.exp 2 3 ∧
    (Abcd.mk 0.25 0.5 0 0.125 : Abcd ℝ).primitiveDividend Real.exp 1 2 3 = 0 ∧
    (Abcd.mk 0.25 0.5 0 0.125 : Abcd ℝ).primitiveDivisor Real.exp 2 3 = 0 := by
  have hguard : ¬ ((2 : ℝ) < 1 ∨ (3 : ℝ) < 1) := by norm_num
  have hcut : (1 : ℝ) < min 3 2 := by norm_num
  have hmin : min (1 : ℝ) (min 3 2) = 1 := by norm_num
  refine ⟨?_, hguard, ?_, ?_, ?_⟩
  · rw [covariance_of_lt_cutOff _ 1 1 2 3 le_rfl hcut, hmin]
  · simp only [Abcd.primitive, Abcd.primitiveDividend, Abcd.primitiveDivisor, if_neg hguard]
  · simp [Abcd.primitiveDividend]
  · simp [Abcd.primitiveDivisor]

/-- C18: covariance is symmetric in the two maturities:
`primitive(t,T,S) = primitive(t,S,T)`, `covariance(t1,t2,T,S) = covariance(t1,t2,S,T)` and the
single-point `covariance(t,T,S) = covariance(t,S,T)`. -/
theorem C18_covariance_symmetric (p : Abcd ℝ) (t t1 t2 T S : ℝ) :
    p.primitive Real.exp t T S = p.primitive Real.exp t S T ∧
    p.covariance Real.exp t1 t2 T S = p.covariance Real.exp t1 t2 S T ∧
    p.covariance3 Real.exp t T S = p.covariance3 Real.exp t S T := by
  refine ⟨primitive_symm p t T S, ?_, ?_⟩
  · simp only [Abcd.covariance, min_comm S T, primitive_symm p _ T S]
  · simp only [Abcd.covariance3]
    ring

/-- C20: `instantaneousVariance(u,T) = f(T−u)² ≥ 0` and
`instantaneousVolatility(u,T) = |f(T−u)|`; it equals `f(T−u)` exactly when `f(T−u) ≥ 0`, and
is `0` whenever `u > T`. -/
theorem C20_instantaneous_volatility_is_abs (p : Abcd ℝ) (u T : ℝ) :
    p.instantaneousVariance Real.exp u T = p.operatorCall Real.exp (T - u) ^ 2 ∧
    0 ≤ p.instantaneousVariance Real.exp u T ∧
    p.instantaneousVolatility Real.exp Real.sqrt u T = |p.operatorCall Real.exp (T - u)| ∧
    (p.instantaneousVolatility Real.exp Real.sqrt u T = p.operatorCall Real.exp (T - u)
      ↔ 0 ≤ p.operatorCall Real.exp (T - u)) ∧
    (u > T → p.instantaneousVolatility Real.exp Real.sqrt u T = 0) := by
  have hvar : p.instantaneousVariance Real.exp u T = p.operatorCall Real.exp (T - u) ^ 2 := by
    simp only [Abcd.instantaneousVariance, Abcd.instantaneousCovariance]
    ring
  have hvol : p.instantaneousVolatility Real.exp Real.sqrt u T
      = |p.operatorCall Real.exp (T - u)| := by
    simp only [Abcd.instantaneousVolatility, hvar]
    exact Real.sqrt_sq_eq_abs _
  refine ⟨hvar, by rw [hvar]; exact sq_nonneg _, hvol, by rw [hvol]; exact abs_eq_self, ?_⟩
  intro hgt
  rw [hvol, operatorCall_of_neg _ _ (T - u) (sub_neg.mpr hgt), abs_zero]

/-- Witness of C20: the curve `a=0.2, b=0.4, c=1, d=0.1` at `u = 3 > T = 2`. -/
theorem C20_instantaneous_volatility_is_abs_witness :
    (3 : ℝ) > 2 ∧
    (Abcd.mk 0.2 0.4 1 0.1 : Abcd ℝ).instantaneousVolatility Real.exp Real.sqrt 3 2 = 0 :=
  ⟨by norm_num,
    (C20_instantaneous_volatility_is_abs (Abcd.mk 0.2 0.4 1 0.1) 3 2).2.2.2.2 (by norm_num)⟩

end QuantLib
